import Mathlib

/-!
Shallow embedding of the order-lifecycle core of `strategy.py`
(an event-driven market-making strategy harness).

Times are nanosecond integers (`Int`); prices, sizes and the quote-asset
position are modelled as rationals (`ℚ`), standing for the Python floats.
The `random.choice(['BID', 'ASK'])` draw is passed in explicitly as an
oracle argument (`rng : Side`), one draw per processed event, consumed
only on the branch that calls it.  The exchange simulator is external:
calls to `sim.place_order` / `sim.cancel_order` are recorded in the
state's `placed` / `cancels` output lists, and the incoming updates are
the event stream the run folds over.
-/

namespace Strategy

/-- Order side, the `'BID'` / `'ASK'` strings of the source. -/
inductive Side
  | BID
  | ASK
deriving DecidableEq, Repr

/-- An order intent.  `receive_ts` is not set by the strategy when it
creates an order (it defaults); the simulator stamps it on the copy it
echoes back inside an `ActionResponse`, where line 104 of the source
reads `response.action.receive_ts`. -/
structure Order where
  client_ts : Int
  client_order_id : Nat
  side : Side
  size : ℚ
  price : ℚ
  receive_ts : Int := 0
deriving DecidableEq, Repr

/-- `OrderCancel(current_time, client_order_id=...)` of the source. -/
structure OrderCancel where
  receive_ts : Int
  client_order_id : Nat
deriving DecidableEq, Repr

/-- Response codes; the source only ever tests equality with `OK`. -/
inductive ResponseCode
  | OK
  | REJECTED
  | NOT_FOUND
deriving DecidableEq, Repr

/-- The action echoed inside an `ActionResponse`: an `Order` or an
`OrderCancel`. -/
inductive Action
  | order : Order → Action
  | cancel : OrderCancel → Action
deriving DecidableEq, Repr

/-- `response.action.receive_ts` (source line 104). -/
def Action.receive_ts : Action → Int
  | .order o => o.receive_ts
  | .cancel c => c.receive_ts

/-- Acknowledgment of a submitted action.  The response's own
`receive_ts` exists on the wire but is never read by the strategy. -/
structure ActionResponse where
  action : Action
  code : ResponseCode
  receive_ts : Int := 0
deriving DecidableEq, Repr

/-- A public trade print; only its `receive_ts` is read. -/
structure TradeUpdate where
  receive_ts : Int
deriving DecidableEq, Repr

/-- An orderbook snapshot: bid and ask ladders of (price, size) pairs,
best first.  The source reads `bids[0][0]` and `asks[0][0]`. -/
structure OrderbookSnapshotUpdate where
  receive_ts : Int
  bids : List (ℚ × ℚ)
  asks : List (ℚ × ℚ)
deriving DecidableEq, Repr

/-- Market-data update: at most one of `orderbook` / `trade` is
populated; the dispatch checks `orderbook` first, then `trade`, else
uses the update's own `receive_ts`. -/
structure MdUpdate where
  receive_ts : Int
  orderbook : Option OrderbookSnapshotUpdate := none
  trade : Option TradeUpdate := none
deriving DecidableEq, Repr

/-- A confirmed fill against one of the strategy's own orders. -/
structure OwnTrade where
  receive_ts : Int
  client_order_id : Nat
  side : Side
  size : ℚ
  price : ℚ
deriving DecidableEq, Repr

/-- The tagged union of updates `sim.tick()` can deliver (the `None`
end-of-stream sentinel is the end of the event list). -/
inductive Update
  | md : MdUpdate → Update
  | ownTrade : OwnTrade → Update
  | actionResponse : ActionResponse → Update
deriving DecidableEq, Repr

/-- Constructor-time configuration of `Strategy.__init__`. -/
structure Config where
  max_position : ℚ
  order_lifetime : Int
deriving DecidableEq, Repr

/-- The mutable fields of the `Strategy` instance, plus the two output
streams sent to the simulator (`placed` records `sim.place_order`
calls, `cancels` records `sim.cancel_order` calls). -/
structure State where
  current_time : Option Int
  orderbook : Option OrderbookSnapshotUpdate
  client_order_id : Nat
  active_orders : List (Nat × Order)
  position_size_quote : ℚ
  placed : List Order
  cancels : List OrderCancel
deriving DecidableEq, Repr

/-- The state right after `__init__`. -/
def initState : State :=
  { current_time := none
    orderbook := none
    client_order_id := 1
    active_orders := []
    position_size_quote := 0
    placed := []
    cancels := [] }

/-- `key in od` for the insertion-ordered dict `active_orders`. -/
def odMem (d : List (Nat × Order)) (k : Nat) : Bool :=
  d.any (fun p => p.1 == k)

/-- `od[k] = v`: replace in place when the key exists, else append
(the `OrderedDict` assignment semantics). -/
def odInsert (d : List (Nat × Order)) (k : Nat) (v : Order) : List (Nat × Order) :=
  if odMem d k then d.map (fun p => if p.1 == k then (k, v) else p)
  else d ++ [(k, v)]

/-- `od.pop(k)`: drop the entry with key `k` (callers in the source pop
only keys they just checked or collected from the dict). -/
def odPop (d : List (Nat × Order)) (k : Nat) : List (Nat × Order) :=
  d.filter (fun p => p.1 != k)

/-- `Strategy.next_order_id`: return the counter, then increment it. -/
def nextOrderId (s : State) : Nat × State :=
  (s.client_order_id, { s with client_order_id := s.client_order_id + 1 })

/-- `Strategy.place_order`: record in `active_orders`, forward to the
simulator. -/
def placeOrder (s : State) (o : Order) : State :=
  { s with
    active_orders := odInsert s.active_orders o.client_order_id o
    placed := s.placed ++ [o] }

/-- The `to_cancel` collection loop (source lines 113-118): walk the
ledger in iteration order, collect every key whose age strictly exceeds
the lifetime, stop at the first that does not. -/
def collectExpired (lifetime now : Int) : List (Nat × Order) → List Nat
  | [] => []
  | p :: rest =>
      if now - p.2.client_ts > lifetime then p.1 :: collectExpired lifetime now rest
      else []

/-- The end-of-cycle sweep (source lines 112-122): collect expired keys,
pop each from the ledger and emit an `OrderCancel(current_time, key)`
(each popped entry's `client_order_id` equals its key, since both
insertion sites key the dict by the order's own id). -/
def sweepAt (cfg : Config) (now : Int) (s : State) : State :=
  let keys := collectExpired cfg.order_lifetime now s.active_orders
  { s with
    active_orders := keys.foldl odPop s.active_orders
    cancels := s.cancels ++ keys.map (fun k => OrderCancel.mk now k) }

/-- One iteration of the `while True` loop body of `Strategy.run` for a
non-`None` update: dispatch on the update kind, then run the lifetime
sweep (skipped, via `continue`, for market-data updates while no
orderbook has been seen yet).  Returns `none` when the Python code
would raise, i.e. on an orderbook snapshot with an empty bid or ask
ladder (`bids[0]` / `asks[0]` out of range). -/
def step (cfg : Config) (s : State) (u : Update) (rng : Side) : Option State :=
  match u with
  | .md m =>
    match m.orderbook with
    | some ob =>
      match ob.bids, ob.asks with
      | bestBid :: _, bestAsk :: _ =>
        let t := ob.receive_ts
        let s1 := { s with orderbook := some ob, current_time := some t }
        let n1 := nextOrderId s1
        let order_best_bid : Order :=
          { client_ts := t + 20, client_order_id := n1.1, side := .BID
            size := 1/1000, price := bestBid.1 }
        let n2 := nextOrderId n1.2
        let order_best_ask : Order :=
          { client_ts := t + 20, client_order_id := n2.1, side := .ASK
            size := 1/1000, price := bestAsk.1 }
        let s2 := n2.2
        let s3 :=
          if s2.position_size_quote < -cfg.max_position then placeOrder s2 order_best_bid
          else if s2.position_size_quote > cfg.max_position then placeOrder s2 order_best_ask
          else
            match rng with
            | .BID => placeOrder s2 order_best_bid
            | .ASK => placeOrder s2 order_best_ask
        some (sweepAt cfg t s3)
      | _, _ => none
    | none =>
      let t :=
        match m.trade with
        | some tr => tr.receive_ts
        | none => m.receive_ts
      let s1 := { s with current_time := some t }
      match s1.orderbook with
      | none => some s1
      | some _ => some (sweepAt cfg t s1)
  | .ownTrade tr =>
    let t := tr.receive_ts
    let s1 := { s with current_time := some t }
    let s2 :=
      if odMem s1.active_orders tr.client_order_id then
        { s1 with active_orders := odPop s1.active_orders tr.client_order_id }
      else s1
    let s3 :=
      match tr.side with
      | .BID => { s2 with position_size_quote := s2.position_size_quote + tr.size * tr.price }
      | .ASK => { s2 with position_size_quote := s2.position_size_quote - tr.size * tr.price }
    some (sweepAt cfg t s3)
  | .actionResponse r =>
    let t := r.action.receive_ts
    let s1 := { s with current_time := some t }
    let s2 :=
      match r.action with
      | .order o =>
          if r.code = ResponseCode.OK then
            { s1 with active_orders := odInsert s1.active_orders o.client_order_id o }
          else s1
      | .cancel _ => s1
    some (sweepAt cfg t s2)

/-- `Strategy.run` over a finite event stream, with the per-event
random draw supplied alongside each update. -/
def run (cfg : Config) : State → List (Update × Side) → Option State
  | s, [] => some s
  | s, (u, rng) :: rest =>
    match step cfg s u rng with
    | none => none
    | some s' => run cfg s' rest

/-- The effective timestamp the dispatch assigns to `current_time` for
an update: the snapshot's, else the trade's, else the update's own
`receive_ts` for market data; the fill's `receive_ts`; and for an
`ActionResponse` the **contained action's** `receive_ts`. -/
def Update.effTs : Update → Int
  | .md m =>
    match m.orderbook with
    | some ob => ob.receive_ts
    | none =>
      match m.trade with
      | some tr => tr.receive_ts
      | none => m.receive_ts
  | .ownTrade tr => tr.receive_ts
  | .actionResponse r => r.action.receive_ts

/-- Signed notional of a fill: `+size*price` for BID, `-size*price`
for ASK. -/
def fillSigned (tr : OwnTrade) : ℚ :=
  match tr.side with
  | .BID => tr.size * tr.price
  | .ASK => -(tr.size * tr.price)

/-- Contribution of one update to the position: the signed notional of
a fill, zero for every other update kind. -/
def updateFill : Update → ℚ
  | .ownTrade tr => fillSigned tr
  | _ => 0

/-- Signed sum of the fills in a trace (market-data and response events
contribute nothing). -/
def fillsSum : List (Update × Side) → ℚ
  | [] => 0
  | (u, _) :: rest => updateFill u + fillsSum rest

/-- The spec's stated precondition on the Ledger: iteration order is
non-decreasing in creation time. -/
def ledgerSorted (d : List (Nat × Order)) : Prop :=
  d.Pairwise (fun p q => p.2.client_ts ≤ q.2.client_ts)

/-- Whether an update is an OK placement acknowledgment for id `k`. -/
def okPlacementFor (u : Update) (k : Nat) : Bool :=
  match u with
  | .actionResponse r =>
    (r.code == ResponseCode.OK) &&
      (match r.action with
       | .order o => o.client_order_id == k
       | .cancel _ => false)
  | _ => false

/-- The state after `n` successive calls to `next_order_id`. -/
def afterCalls : Nat → State → State
  | 0, s => s
  | n + 1, s => afterCalls n (nextOrderId s).2

/-! ### Projection lemmas for the state transformers -/

@[simp] theorem sweepAt_current_time (cfg : Config) (now : Int) (s : State) :
    (sweepAt cfg now s).current_time = s.current_time := rfl

@[simp] theorem sweepAt_orderbook (cfg : Config) (now : Int) (s : State) :
    (sweepAt cfg now s).orderbook = s.orderbook := rfl

@[simp] theorem sweepAt_client_order_id (cfg : Config) (now : Int) (s : State) :
    (sweepAt cfg now s).client_order_id = s.client_order_id := rfl

@[simp] theorem sweepAt_position (cfg : Config) (now : Int) (s : State) :
    (sweepAt cfg now s).position_size_quote = s.position_size_quote := rfl

@[simp] theorem sweepAt_placed (cfg : Config) (now : Int) (s : State) :
    (sweepAt cfg now s).placed = s.placed := rfl

theorem sweepAt_active_orders (cfg : Config) (now : Int) (s : State) :
    (sweepAt cfg now s).active_orders
      = (collectExpired cfg.order_lifetime now s.active_orders).foldl odPop s.active_orders := rfl

theorem sweepAt_cancels (cfg : Config) (now : Int) (s : State) :
    (sweepAt cfg now s).cancels
      = s.cancels
        ++ (collectExpired cfg.order_lifetime now s.active_orders).map (fun k => OrderCancel.mk now k) :=
  rfl

@[simp] theorem placeOrder_current_time (s : State) (o : Order) :
    (placeOrder s o).current_time = s.current_time := rfl

@[simp] theorem placeOrder_orderbook (s : State) (o : Order) :
    (placeOrder s o).orderbook = s.orderbook := rfl

@[simp] theorem placeOrder_client_order_id (s : State) (o : Order) :
    (placeOrder s o).client_order_id = s.client_order_id := rfl

@[simp] theorem placeOrder_position (s : State) (o : Order) :
    (placeOrder s o).position_size_quote = s.position_size_quote := rfl

@[simp] theorem placeOrder_placed (s : State) (o : Order) :
    (placeOrder s o).placed = s.placed ++ [o] := rfl

@[simp] theorem placeOrder_active_orders (s : State) (o : Order) :
    (placeOrder s o).active_orders = odInsert s.active_orders o.client_order_id o := rfl

@[simp] theorem nextOrderId_fst (s : State) :
    (nextOrderId s).1 = s.client_order_id := rfl

@[simp] theorem nextOrderId_snd_client_order_id (s : State) :
    (nextOrderId s).2.client_order_id = s.client_order_id + 1 := rfl

@[simp] theorem nextOrderId_snd_current_time (s : State) :
    (nextOrderId s).2.current_time = s.current_time := rfl

@[simp] theorem nextOrderId_snd_orderbook (s : State) :
    (nextOrderId s).2.orderbook = s.orderbook := rfl

@[simp] theorem nextOrderId_snd_active_orders (s : State) :
    (nextOrderId s).2.active_orders = s.active_orders := rfl

@[simp] theorem nextOrderId_snd_position (s : State) :
    (nextOrderId s).2.position_size_quote = s.position_size_quote := rfl

@[simp] theorem nextOrderId_snd_placed (s : State) :
    (nextOrderId s).2.placed = s.placed := rfl

@[simp] theorem nextOrderId_snd_cancels (s : State) :
    (nextOrderId s).2.cancels = s.cancels := rfl

/-- Every branch of the dispatch stores the update's effective timestamp
into `current_time` before the sweep, and the sweep leaves it alone. -/
theorem step_current_time (cfg : Config) (s : State) (u : Update) (rng : Side) (s' : State)
    (h : step cfg s u rng = some s') : s'.current_time = some u.effTs := by
  cases u with
  | md m =>
    cases hob : m.orderbook with
    | some ob =>
      cases hbs : ob.bids with
      | nil => simp [step, hob, hbs] at h
      | cons bb tb =>
        cases has : ob.asks with
        | nil => simp [step, hob, hbs, has] at h
        | cons ba ta =>
          simp only [step, hob, hbs, has, Option.some.injEq] at h
          subst h
          simp only [sweepAt_current_time, Update.effTs, hob]
          split
          · rfl
          · split
            · rfl
            · cases rng <;> rfl
    | none =>
      simp only [step, hob] at h
      cases htr : m.trade with
      | some tr =>
        simp only [htr] at h
        cases hsb : s.orderbook <;> (simp [hsb] at h; simp [← h, Update.effTs, hob, htr])
      | none =>
        simp only [htr] at h
        cases hsb : s.orderbook <;> (simp [hsb] at h; simp [← h, Update.effTs, hob, htr])
  | ownTrade tr =>
    simp only [step, Option.some.injEq] at h
    subst h
    simp only [sweepAt_current_time, Update.effTs]
    split <;> split <;> rfl
  | actionResponse r =>
    simp only [step, Option.some.injEq] at h
    subst h
    simp only [sweepAt_current_time, Update.effTs]
    cases hact : r.action with
    | order o =>
      simp only [hact]
      split <;> rfl
    | cancel c => simp [hact]

/-- Successive generator calls advance the id counter by one each. -/
theorem afterCalls_client_order_id (n : Nat) (s : State) :
    (afterCalls n s).client_order_id = s.client_order_id + n := by
  induction n generalizing s with
  | zero => rfl
  | succ n ih =>
    show (afterCalls n (nextOrderId s).2).client_order_id = s.client_order_id + (n + 1)
    rw [ih]
    simp [nextOrderId]
    omega

/-! ### Ledger lemmas -/

/-- Popping a key removes it. -/
theorem odMem_odPop_self (d : List (Nat × Order)) (k : Nat) :
    odMem (odPop d k) k = false := by
  rw [Bool.eq_false_iff]
  intro hcon
  rw [odMem, List.any_eq_true] at hcon
  obtain ⟨p, hp, hpk⟩ := hcon
  rw [odPop, List.mem_filter] at hp
  have h1 : p.1 = k := by simpa using hpk
  have h2 : ¬p.1 = k := by simpa using hp.2
  exact h2 h1

/-- Popping never adds membership. -/
theorem odMem_odPop_imp (d : List (Nat × Order)) (j k : Nat)
    (h : odMem (odPop d j) k = true) : odMem d k = true := by
  simp only [odMem, odPop, List.any_eq_true] at h ⊢
  obtain ⟨p, hp, hpk⟩ := h
  exact ⟨p, (List.mem_filter.1 hp).1, hpk⟩

/-- A fold of pops never adds membership. -/
theorem odMem_foldl_odPop_imp (ks : List Nat) (d : List (Nat × Order)) (k : Nat)
    (h : odMem (ks.foldl odPop d) k = true) : odMem d k = true := by
  induction ks generalizing d with
  | nil => exact h
  | cons j ks ih => exact odMem_odPop_imp d j k (ih (odPop d j) h)

/-- After popping every collected key, a collected key is gone. -/
theorem odMem_foldl_odPop_of_mem (ks : List Nat) (d : List (Nat × Order)) (k : Nat)
    (hk : k ∈ ks) : odMem (ks.foldl odPop d) k = false := by
  induction ks generalizing d with
  | nil => cases hk
  | cons j ks ih =>
    rcases List.mem_cons.1 hk with hkj | hks
    · subst hkj
      by_cases hmem : k ∈ ks
      · exact ih (odPop d k) hmem
      · rw [Bool.eq_false_iff]
        intro hcon
        have := odMem_foldl_odPop_imp ks (odPop d k) k hcon
        rw [odMem_odPop_self] at this
        cases this
    · exact ih (odPop d j) hks

/-- Pops of other keys preserve an entry. -/
theorem mem_foldl_odPop_of_not_mem (ks : List Nat) (d : List (Nat × Order)) (k : Nat) (o : Order)
    (hmem : (k, o) ∈ d) (hk : k ∉ ks) : (k, o) ∈ ks.foldl odPop d := by
  induction ks generalizing d with
  | nil => exact hmem
  | cons j ks ih =>
    have hkj : k ≠ j := fun h => hk (h ▸ List.mem_cons_self j ks)
    have hmem' : (k, o) ∈ odPop d j := by
      rw [odPop, List.mem_filter]
      exact ⟨hmem, by simpa using hkj⟩
    exact ih (odPop d j) hmem' (fun h => hk (List.mem_cons_of_mem j h))

/-- Popping (any key) preserves absence. -/
theorem odMem_odPop_false (d : List (Nat × Order)) (j k : Nat)
    (hd : odMem d k = false) : odMem (odPop d j) k = false := by
  rw [Bool.eq_false_iff]
  intro hc
  have htrue := odMem_odPop_imp d j k hc
  rw [hd] at htrue
  exact Bool.false_ne_true htrue

/-- A fold of pops preserves absence. -/
theorem odMem_foldl_odPop_false (ks : List Nat) (d : List (Nat × Order)) (k : Nat)
    (hd : odMem d k = false) : odMem (ks.foldl odPop d) k = false := by
  rw [Bool.eq_false_iff]
  intro hc
  have htrue := odMem_foldl_odPop_imp ks d k hc
  rw [hd] at htrue
  exact Bool.false_ne_true htrue

/-- Inserting under a different key does not change membership of `k`. -/
theorem odMem_odInsert_ne (d : List (Nat × Order)) (j k : Nat) (v : Order) (hjk : j ≠ k) :
    odMem (odInsert d j v) k = odMem d k := by
  rw [odInsert]
  split
  · rename_i hmem
    clear hmem
    simp only [odMem, List.any_map]
    induction d with
    | nil => rfl
    | cons p rest ih =>
      simp only [List.any_cons]
      rw [ih]
      congr 1
      simp only [Function.comp_apply]
      by_cases hpj : p.1 = j
      · rw [if_pos (by simpa using hpj)]
        have h2 : (j == k) = false := by simpa using hjk
        have h3 : (p.1 == k) = false := by rw [hpj]; simpa using hjk
        rw [h2, h3]
      · rw [if_neg (by simpa using hpj)]
  · simp only [odMem, List.any_append, List.any_cons, List.any_nil]
    have hf : (j == k) = false := by simpa using hjk
    simp [hf]

/-- Under the nodup-keys invariant, a key determines its ledger entry. -/
theorem entry_unique_of_nodup_keys {d : List (Nat × Order)}
    (h : (d.map Prod.fst).Nodup) {k : Nat} {o o' : Order}
    (h1 : (k, o) ∈ d) (h2 : (k, o') ∈ d) : o = o' := by
  induction d with
  | nil => cases h1
  | cons p rest ih =>
    rw [List.map_cons, List.nodup_cons] at h
    rcases List.mem_cons.1 h1 with he1 | hr1 <;> rcases List.mem_cons.1 h2 with he2 | hr2
    · rw [← he1] at he2; exact congrArg Prod.snd he2.symm
    · exfalso
      apply h.1
      rw [← he1]
      exact List.mem_map.2 ⟨(k, o'), hr2, rfl⟩
    · exfalso
      apply h.1
      rw [← he2]
      exact List.mem_map.2 ⟨(k, o), hr1, rfl⟩
    · exact ih h.2 hr1 hr2

/-! ### Sweep-scan lemmas -/

/-- On a creation-time-sorted ledger the early-stopping collection loop
is a full scan: it returns exactly the keys of the expired entries. -/
theorem collectExpired_eq_filter_map (lifetime now : Int) (d : List (Nat × Order))
    (hsorted : ledgerSorted d) :
    collectExpired lifetime now d
      = (d.filter (fun p => decide (now - p.2.client_ts > lifetime))).map Prod.fst := by
  induction d with
  | nil => rfl
  | cons p rest ih =>
    rw [ledgerSorted, List.pairwise_cons] at hsorted
    obtain ⟨hhead, htail⟩ := hsorted
    by_cases hexp : now - p.2.client_ts > lifetime
    · rw [collectExpired, if_pos hexp, ih htail,
        List.filter_cons_of_pos (by simpa using hexp), List.map_cons]
    · rw [collectExpired, if_neg hexp, List.filter_cons_of_neg (by simpa using hexp)]
      have hall : ∀ q ∈ rest, ¬(decide (now - q.2.client_ts > lifetime) = true) := by
        intro q hq
        have hle := hhead q hq
        simp only [decide_eq_true_eq]
        omega
      rw [List.filter_eq_nil_iff.2 hall]
      rfl

/-- Key membership in the collected list, on a sorted ledger. -/
theorem mem_collectExpired_iff (lifetime now : Int) (d : List (Nat × Order)) (k : Nat)
    (hsorted : ledgerSorted d) :
    k ∈ collectExpired lifetime now d
      ↔ ∃ o : Order, (k, o) ∈ d ∧ now - o.client_ts > lifetime := by
  rw [collectExpired_eq_filter_map lifetime now d hsorted]
  constructor
  · intro hk
    obtain ⟨p, hp, hpk⟩ := List.mem_map.1 hk
    obtain ⟨hpd, hpe⟩ := List.mem_filter.1 hp
    subst hpk
    exact ⟨p.2, by simpa using hpd, by simpa using hpe⟩
  · rintro ⟨o, hmem, hexp⟩
    exact List.mem_map.2 ⟨(k, o), List.mem_filter.2 ⟨hmem, by simpa using hexp⟩, rfl⟩

/-- The collected keys are distinct when the ledger keys are. -/
theorem collectExpired_nodup (lifetime now : Int) (d : List (Nat × Order))
    (hsorted : ledgerSorted d) (hnodup : (d.map Prod.fst).Nodup) :
    (collectExpired lifetime now d).Nodup := by
  rw [collectExpired_eq_filter_map lifetime now d hsorted]
  exact ((List.filter_sublist d).map Prod.fst).nodup hnodup

/-- A still-young entry of a sorted, nodup-keyed ledger survives the
sweep and triggers no cancel request. -/
theorem sweep_keeps_young (cfg : Config) (now : Int) (s : State) (k : Nat) (o : Order)
    (hsorted : ledgerSorted s.active_orders)
    (hnodup : (s.active_orders.map Prod.fst).Nodup)
    (hmem : (k, o) ∈ s.active_orders)
    (hyoung : now - o.client_ts ≤ cfg.order_lifetime) :
    (k, o) ∈ (sweepAt cfg now s).active_orders ∧
      (sweepAt cfg now s).cancels.filter (fun c => c.client_order_id == k)
        = s.cancels.filter (fun c => c.client_order_id == k) := by
  have hnot : k ∉ collectExpired cfg.order_lifetime now s.active_orders := by
    rw [mem_collectExpired_iff cfg.order_lifetime now s.active_orders k hsorted]
    rintro ⟨o', hmem', hexp'⟩
    have heq := entry_unique_of_nodup_keys hnodup hmem hmem'
    rw [heq] at hyoung
    omega
  constructor
  · rw [sweepAt_active_orders]
    exact mem_foldl_odPop_of_not_mem _ _ k o hmem hnot
  · rw [sweepAt_cancels, List.filter_append]
    have hnil :
        ((collectExpired cfg.order_lifetime now s.active_orders).map
            (fun j => OrderCancel.mk now j)).filter (fun c => c.client_order_id == k) = [] := by
      rw [List.filter_eq_nil_iff]
      intro c hc
      obtain ⟨j, hj, hjc⟩ := List.mem_map.1 hc
      rw [← hjc]
      simp only [Bool.not_eq_true, beq_eq_false_iff_ne, ne_eq]
      intro hjk
      exact hnot (hjk ▸ hj)
    rw [hnil, List.append_nil]

/-! ### Position lemmas -/

/-- One step changes the position by exactly the update's fill
contribution. -/
theorem step_position (cfg : Config) (s : State) (u : Update) (rng : Side) (s' : State)
    (h : step cfg s u rng = some s') :
    s'.position_size_quote = s.position_size_quote + updateFill u := by
  cases u with
  | md m =>
    cases hob : m.orderbook with
    | some ob =>
      cases hbs : ob.bids with
      | nil => simp [step, hob, hbs] at h
      | cons bb tb =>
        cases has : ob.asks with
        | nil => simp [step, hob, hbs, has] at h
        | cons ba ta =>
          simp only [step, hob, hbs, has, Option.some.injEq] at h
          subst h
          simp only [sweepAt_position, updateFill]
          split
          · simp
          · split
            · simp
            · cases rng <;> simp
    | none =>
      simp only [step, hob] at h
      cases hsb : s.orderbook <;> (simp [hsb] at h; simp [← h, updateFill])
  | ownTrade tr =>
    simp only [step, Option.some.injEq] at h
    subst h
    simp only [sweepAt_position, updateFill, fillSigned]
    cases hside : tr.side <;> simp only [hside] <;> split <;>
      simp [sub_eq_add_neg]
  | actionResponse r =>
    simp only [step, Option.some.injEq] at h
    subst h
    simp only [sweepAt_position, updateFill]
    cases hact : r.action with
    | order o => simp only [hact]; split <;> simp
    | cancel c => simp [hact]

/-- Across a run, the position accumulates the fills' signed notional. -/
theorem run_position (cfg : Config) (es : List (Update × Side)) : ∀ s s' : State,
    run cfg s es = some s' →
      s'.position_size_quote = s.position_size_quote + fillsSum es := by
  induction es with
  | nil =>
    intro s s' h
    simp only [run, Option.some.injEq] at h
    subst h
    simp [fillsSum]
  | cons p rest ih =>
    intro s s' h
    obtain ⟨u, rng⟩ := p
    simp only [run] at h
    cases hstep : step cfg s u rng with
    | none => rw [hstep] at h; exact Option.noConfusion h
    | some s1 =>
      rw [hstep] at h
      rw [ih s1 s' h, step_position cfg s u rng s1 hstep]
      show s.position_size_quote + updateFill u + fillsSum rest
        = s.position_size_quote + (updateFill u + fillsSum rest)
      ring

/-- C5: on a ledger whose iteration order is non-decreasing in creation
time (the stated precondition), the early-stopping collection loop of
the sweep is equivalent to a full scan: it collects exactly the ids of
the outstanding orders whose age `now - creation_time` strictly exceeds
the configured lifetime. -/
theorem sweep_scan_equiv (lifetime now : Int) (d : List (Nat × Order))
    (hsorted : ledgerSorted d) :
    collectExpired lifetime now d
      = (d.filter (fun p => decide (now - p.2.client_ts > lifetime))).map Prod.fst :=
  collectExpired_eq_filter_map lifetime now d hsorted

theorem sweep_scan_equiv_witness :
    collectExpired 5 20
        [(1, ⟨0, 1, .BID, 1, 100, 0⟩), (2, ⟨10, 2, .ASK, 1, 101, 0⟩),
          (3, ⟨18, 3, .BID, 1, 102, 0⟩)]
      = (([(1, ⟨0, 1, .BID, 1, 100, 0⟩), (2, ⟨10, 2, .ASK, 1, 101, 0⟩),
            (3, ⟨18, 3, .BID, 1, 102, 0⟩)] : List (Nat × Order)).filter
            (fun p => decide ((20 : Int) - p.2.client_ts > 5))).map Prod.fst :=
  sweep_scan_equiv 5 20 _ (by unfold ledgerSorted; decide)

/-- C2 (amended): processing an `ActionResponse` with any non-OK code
makes **no change** to the active-orders Ledger — in particular an
order placed optimistically by `place_order` remains referenced after
its rejection, leaving the Ledger only through a later fill or the
lifetime sweep.  Concretely, a still-young entry of a sorted,
uniquely-keyed ledger is still present after the rejection is
processed. -/
theorem rejection_leaves_ledger (cfg : Config) (s : State) (r : ActionResponse) (rng : Side)
    (s' : State) (k : Nat) (o : Order)
    (hcode : r.code ≠ ResponseCode.OK)
    (h : step cfg s (.actionResponse r) rng = some s')
    (hsorted : ledgerSorted s.active_orders)
    (hnodup : (s.active_orders.map Prod.fst).Nodup)
    (hmem : (k, o) ∈ s.active_orders)
    (hyoung : r.action.receive_ts - o.client_ts ≤ cfg.order_lifetime) :
    (k, o) ∈ s'.active_orders := by
  simp only [step, Option.some.injEq] at h
  subst h
  cases hact : r.action with
  | order o' =>
    simp only [hact]
    rw [if_neg hcode]
    rw [hact] at hyoung
    exact (sweep_keeps_young cfg (Action.order o').receive_ts
      { s with current_time := some (Action.order o').receive_ts } k o
      hsorted hnodup hmem hyoung).1
  | cancel c =>
    simp only [hact]
    rw [hact] at hyoung
    exact (sweep_keeps_young cfg (Action.cancel c).receive_ts
      { s with current_time := some (Action.cancel c).receive_ts } k o
      hsorted hnodup hmem hyoung).1

theorem rejection_leaves_ledger_witness :
    ((1 : Nat), (⟨20, 1, .BID, 1, 100, 0⟩ : Order))
      ∈ (State.mk (some 30) none 2 [(1, ⟨20, 1, .BID, 1, 100, 0⟩)] 0
          [⟨20, 1, .BID, 1, 100, 0⟩] []).active_orders :=
  rejection_leaves_ledger ⟨10000, 100⟩
    (State.mk (some 25) none 2 [(1, ⟨20, 1, .BID, 1, 100, 0⟩)] 0
      [⟨20, 1, .BID, 1, 100, 0⟩] [])
    ⟨.order ⟨20, 1, .BID, 1, 100, 30⟩, .REJECTED, 30⟩ .ASK _ 1 ⟨20, 1, .BID, 1, 100, 0⟩
    (by decide) (by decide) (by unfold ledgerSorted; decide) (by decide) (by decide)
    (by decide)

/-- C2 counterexample: an order (id 1) is submitted via `place_order` at
a snapshot; an `ActionResponse` for that order with code REJECTED (not
OK) is then processed; contrary to the claim, id 1 is still present in
the active-orders Ledger afterwards. -/
theorem rejection_claim_counterexample :
    run ⟨10000, 100000000⟩ initState
        [(.md ⟨0, some ⟨0, [(100, 1)], [(101, 1)]⟩, none⟩, .BID),
          (.actionResponse ⟨.order ⟨20, 1, .BID, 1/1000, 100, 30⟩, .REJECTED, 30⟩, .ASK)]
      = some
          (State.mk (some 30) (some ⟨0, [(100, 1)], [(101, 1)]⟩) 3
            [(1, ⟨20, 1, .BID, 1/1000, 100, 0⟩)] 0 [⟨20, 1, .BID, 1/1000, 100, 0⟩] []) ∧
      odMem
          (State.mk (some 30) (some ⟨0, [(100, 1)], [(101, 1)]⟩) 3
            [(1, ⟨20, 1, .BID, 1/1000, 100, 0⟩)] 0 [⟨20, 1, .BID, 1/1000, 100, 0⟩]
            []).active_orders 1 = true := by
  constructor
  · norm_num [run, step, sweepAt, collectExpired, placeOrder, nextOrderId, odInsert,
      odMem, odPop, initState, Action.receive_ts,
      (show (ResponseCode.REJECTED = ResponseCode.OK) = False from eq_false (by decide))]
  · decide

/-- C3 (amended): once an id is absent from the Ledger (e.g. removed by
a fill or by a cancellation sweep) and is below the id counter (so no
future snapshot placement can allocate it again), no subsequently
processed event re-inserts it — **except** an `ActionResponse` with
code OK whose action is an `Order` with that very id: the code inserts
on every OK placement acknowledgment without checking for prior
terminal events, so a late OK confirmation does re-insert the id. -/
theorem no_reinsertion_except_ok (cfg : Config) (s : State) (u : Update) (rng : Side)
    (s' : State) (k : Nat)
    (habsent : odMem s.active_orders k = false)
    (hfresh : k < s.client_order_id)
    (hnotok : okPlacementFor u k = false)
    (h : step cfg s u rng = some s') :
    odMem s'.active_orders k = false ∧ k < s'.client_order_id := by
  cases u with
  | md m =>
    cases hob : m.orderbook with
    | some ob =>
      cases hbs : ob.bids with
      | nil => simp [step, hob, hbs] at h
      | cons bb tb =>
        cases has : ob.asks with
        | nil => simp [step, hob, hbs, has] at h
        | cons ba ta =>
          simp only [step, hob, hbs, has, Option.some.injEq] at h
          subst h
          constructor
          · rw [sweepAt_active_orders]
            apply odMem_foldl_odPop_false
            split
            · rw [placeOrder_active_orders,
                odMem_odInsert_ne _ _ _ _ (by simp; omega)]
              simpa using habsent
            · split
              · rw [placeOrder_active_orders,
                  odMem_odInsert_ne _ _ _ _ (by simp; omega)]
                simpa using habsent
              · cases rng
                · rw [placeOrder_active_orders,
                    odMem_odInsert_ne _ _ _ _ (by simp; omega)]
                  simpa using habsent
                · rw [placeOrder_active_orders,
                    odMem_odInsert_ne _ _ _ _ (by simp; omega)]
                  simpa using habsent
          · rw [sweepAt_client_order_id]
            have hsplit : ∀ x : State, x.client_order_id = s.client_order_id + 2 →
                k < x.client_order_id := by
              intro x hx
              rw [hx]
              omega
            split
            · simp
              omega
            · split
              · simp
                omega
              · cases rng <;> (simp; omega)
    | none =>
      simp only [step, hob] at h
      cases hsb : s.orderbook with
      | none =>
        simp [hsb] at h
        refine ⟨?_, ?_⟩ <;> simp [← h, habsent, hfresh]
      | some ob' =>
        simp [hsb] at h
        refine ⟨?_, ?_⟩ <;> rw [← h]
        · rw [sweepAt_active_orders]
          apply odMem_foldl_odPop_false
          simpa using habsent
        · rw [sweepAt_client_order_id]
          simpa using hfresh
  | ownTrade tr =>
    simp only [step, Option.some.injEq] at h
    subst h
    constructor
    · rw [sweepAt_active_orders]
      apply odMem_foldl_odPop_false
      cases hside : tr.side <;> simp only [hside] <;> split
      · apply odMem_odPop_false
        simpa using habsent
      · simpa using habsent
      · apply odMem_odPop_false
        simpa using habsent
      · simpa using habsent
    · rw [sweepAt_client_order_id]
      cases hside : tr.side <;> simp only [hside] <;> split <;> simpa using hfresh
  | actionResponse r =>
    simp only [step, Option.some.injEq] at h
    subst h
    constructor
    · rw [sweepAt_active_orders]
      apply odMem_foldl_odPop_false
      cases hact : r.action with
      | order o' =>
        simp only [hact]
        by_cases hcode : r.code = ResponseCode.OK
        · rw [if_pos hcode]
          have hne : o'.client_order_id ≠ k := by
            simp only [okPlacementFor, hact, hcode] at hnotok
            simpa using hnotok
          rw [odMem_odInsert_ne _ _ _ _ hne]
          simpa using habsent
        · rw [if_neg hcode]
          simpa using habsent
      | cancel c =>
        simp only [hact]
        simpa using habsent
    · rw [sweepAt_client_order_id]
      cases hact : r.action with
      | order o' =>
        simp only [hact]
        split <;> simpa using hfresh
      | cancel c =>
        simp only [hact]
        simpa using hfresh

theorem no_reinsertion_except_ok_witness :
    odMem
        (State.mk (some 30) none 2 [(5, ⟨20, 5, .BID, 1, 100, 30⟩)] 0 [] []).active_orders 1
        = false ∧
      1 < (State.mk (some 30) none 2 [(5, ⟨20, 5, .BID, 1, 100, 30⟩)] 0 [] []).client_order_id :=
  no_reinsertion_except_ok ⟨10000, 100⟩ (State.mk (some 25) none 2 [] 0 [] [])
    (.actionResponse ⟨.order ⟨20, 5, .BID, 1, 100, 30⟩, .OK, 30⟩) .ASK _ 1
    (by decide) (by decide) (by decide) (by decide)

/-- C3 counterexample: an order (id 1) is placed at a snapshot, then an
`OwnTrade` fill removes it from the Ledger (terminal event); a later
`ActionResponse` with code OK for that same order is then processed and
— contrary to the claim — re-inserts id 1 into the active-orders
Ledger. -/
theorem reinsertion_claim_counterexample :
    run ⟨10000, 100000000⟩ initState
        [(.md ⟨0, some ⟨0, [(100, 1)], [(101, 1)]⟩, none⟩, .BID),
          (.ownTrade ⟨30, 1, .BID, 1/1000, 100⟩, .ASK)]
      = some
          (State.mk (some 30) (some ⟨0, [(100, 1)], [(101, 1)]⟩) 3 [] (1/10)
            [⟨20, 1, .BID, 1/1000, 100, 0⟩] []) ∧
      odMem
          (State.mk (some 30) (some ⟨0, [(100, 1)], [(101, 1)]⟩) 3 [] (1/10)
            [⟨20, 1, .BID, 1/1000, 100, 0⟩] []).active_orders 1 = false ∧
      run ⟨10000, 100000000⟩ initState
        [(.md ⟨0, some ⟨0, [(100, 1)], [(101, 1)]⟩, none⟩, .BID),
          (.ownTrade ⟨30, 1, .BID, 1/1000, 100⟩, .ASK),
          (.actionResponse ⟨.order ⟨20, 1, .BID, 1/1000, 100, 40⟩, .OK, 40⟩, .ASK)]
      = some
          (State.mk (some 40) (some ⟨0, [(100, 1)], [(101, 1)]⟩) 3
            [(1, ⟨20, 1, .BID, 1/1000, 100, 40⟩)] (1/10)
            [⟨20, 1, .BID, 1/1000, 100, 0⟩] []) ∧
      odMem
          (State.mk (some 40) (some ⟨0, [(100, 1)], [(101, 1)]⟩) 3
            [(1, ⟨20, 1, .BID, 1/1000, 100, 40⟩)] (1/10)
            [⟨20, 1, .BID, 1/1000, 100, 0⟩] []).active_orders 1 = true := by
  refine ⟨?_, by decide, ?_, by decide⟩
  · norm_num [run, step, sweepAt, collectExpired, placeOrder, nextOrderId, odInsert,
      odMem, odPop, initState, Action.receive_ts]
  · norm_num [run, step, sweepAt, collectExpired, placeOrder, nextOrderId, odInsert,
      odMem, odPop, initState, Action.receive_ts]

/-- C4 (amended): for an order with creation time `T = client_ts` in a
creation-time-sorted, uniquely-keyed ledger, a sweep at current time
`now` removes it and issues exactly one cancel request for its id when
`now - T` **strictly** exceeds the configured lifetime `L` (that is, on
the first sweep with `now > T + L`), and at any sweep with
`now - T ≤ L` — including the boundary `now = T + L` — it stays in the
ledger and no cancel for its id is issued. -/
theorem lifetime_enforcement (cfg : Config) (now : Int) (s : State) (k : Nat) (o : Order)
    (hsorted : ledgerSorted s.active_orders)
    (hnodup : (s.active_orders.map Prod.fst).Nodup)
    (hmem : (k, o) ∈ s.active_orders) :
    (now - o.client_ts > cfg.order_lifetime →
        odMem (sweepAt cfg now s).active_orders k = false ∧
          ((sweepAt cfg now s).cancels.filter (fun c => c.client_order_id == k)).length
            = (s.cancels.filter (fun c => c.client_order_id == k)).length + 1) ∧
      (now - o.client_ts ≤ cfg.order_lifetime →
        (k, o) ∈ (sweepAt cfg now s).active_orders ∧
          (sweepAt cfg now s).cancels.filter (fun c => c.client_order_id == k)
            = s.cancels.filter (fun c => c.client_order_id == k)) := by
  constructor
  · intro hexp
    have hkmem : k ∈ collectExpired cfg.order_lifetime now s.active_orders :=
      (mem_collectExpired_iff _ _ _ k hsorted).2 ⟨o, hmem, hexp⟩
    constructor
    · rw [sweepAt_active_orders]
      exact odMem_foldl_odPop_of_mem _ _ k hkmem
    · rw [sweepAt_cancels, List.filter_append, List.length_append]
      congr 1
      have hnd := collectExpired_nodup cfg.order_lifetime now s.active_orders hsorted hnodup
      rw [List.filter_map, List.length_map, ← List.countP_eq_length_filter]
      have hc : List.countP
            ((fun c => c.client_order_id == k) ∘ fun j => OrderCancel.mk now j)
            (collectExpired cfg.order_lifetime now s.active_orders)
          = List.count k (collectExpired cfg.order_lifetime now s.active_orders) := by
        rw [List.count_eq_countP]
        rfl
      rw [hc]
      exact List.count_eq_one_of_mem hnd hkmem
  · intro hyoung
    exact sweep_keeps_young cfg now s k o hsorted hnodup hmem hyoung

theorem lifetime_enforcement_witness :
    ((101 : Int) - (0 : Int) > (100 : Int) ∧
        odMem
          (sweepAt ⟨10000, 100⟩ 101
              (State.mk (some 101) none 2 [(1, ⟨0, 1, .BID, 1, 100, 0⟩)] 0 [] [])).active_orders
          1 = false) ∧
      ((101 : Int) - (0 : Int) ≤ (100 : Int) → False) :=
  ⟨⟨by decide,
      ((lifetime_enforcement ⟨10000, 100⟩ 101
            (State.mk (some 101) none 2 [(1, ⟨0, 1, .BID, 1, 100, 0⟩)] 0 [] []) 1
            ⟨0, 1, .BID, 1, 100, 0⟩ (by unfold ledgerSorted; decide) (by decide)
            (by decide)).1 (by decide)).1⟩,
    by decide⟩

/-- C4 counterexample: an order is placed at a snapshot at t = 0 (so its
creation time is T = 20) with configured lifetime L = 100; a later
heartbeat sets current time to 120 = T + L, a sweep runs, and — contrary
to the claim that removal and the cancel happen on the first sweep with
current time ≥ T + L — the order is still in the ledger and no cancel
request has been issued. -/
theorem lifetime_claim_counterexample :
    run ⟨10000, 100⟩ initState
        [(.md ⟨0, some ⟨0, [(100, 1)], [(101, 1)]⟩, none⟩, .BID),
          (.md ⟨120, none, none⟩, .ASK)]
      = some
          (State.mk (some 120) (some ⟨0, [(100, 1)], [(101, 1)]⟩) 3
            [(1, ⟨20, 1, .BID, 1/1000, 100, 0⟩)] 0 [⟨20, 1, .BID, 1/1000, 100, 0⟩] []) ∧
      (120 : Int) ≥ 20 + 100 := by
  constructor
  · norm_num [run, step, sweepAt, collectExpired, placeOrder, nextOrderId, odInsert,
      odMem, odPop, initState, Action.receive_ts]
  · decide

/-- C6: after any successfully processed trace the position equals the
signed sum of the `OwnTrade` fills in it (`+size*price` for BID fills,
`-size*price` for ASK fills), and a step on any update that is not an
`OwnTrade` leaves the position unchanged, so the value is independent
of interleaving with market-data-only events. -/
theorem position_accounting (cfg : Config) :
    (∀ (es : List (Update × Side)) (s' : State),
        run cfg initState es = some s' → s'.position_size_quote = fillsSum es) ∧
      ∀ (s : State) (u : Update) (rng : Side) (s' : State),
        step cfg s u rng = some s' → (∀ tr : OwnTrade, u ≠ .ownTrade tr) →
          s'.position_size_quote = s.position_size_quote := by
  constructor
  · intro es s' h
    rw [run_position cfg es initState s' h]
    show (0 : ℚ) + fillsSum es = fillsSum es
    rw [zero_add]
  · intro s u rng s' h hne
    have h0 : updateFill u = 0 := by
      cases u with
      | md m => rfl
      | ownTrade tr => exact absurd rfl (hne tr)
      | actionResponse r => rfl
    rw [step_position cfg s u rng s' h, h0, add_zero]

theorem position_accounting_witness :
    (State.mk (some 7) none 1 [] 1 [] []).position_size_quote
      = fillsSum [(.md ⟨5, none, none⟩, .BID), (.ownTrade ⟨7, 2, .BID, 1, 1⟩, .BID)] :=
  (position_accounting ⟨10000, 100⟩).1 _ _
    (by norm_num [run, step, sweepAt, collectExpired, odMem, odPop, initState,
      Action.receive_ts])

/-- C1: the strategy-local current time is set, by every dispatch branch,
to the processed update's effective timestamp (for `ActionResponse`
updates the timestamp of the contained action, not of the response), so
across any two consecutively processed events whose effective timestamps
arrive in non-decreasing order — the delivery order the event source
guarantees — `current_time` is monotonically non-decreasing. -/
theorem time_monotonicity (cfg : Config) (s s₁ s₂ : State) (e₁ e₂ : Update) (r₁ r₂ : Side)
    (hord : e₁.effTs ≤ e₂.effTs)
    (h₁ : step cfg s e₁ r₁ = some s₁) (h₂ : step cfg s₁ e₂ r₂ = some s₂) :
    s₁.current_time = some e₁.effTs ∧ s₂.current_time = some e₂.effTs ∧
      ∀ t₁ t₂ : Int, s₁.current_time = some t₁ → s₂.current_time = some t₂ → t₁ ≤ t₂ := by
  have ht₁ := step_current_time cfg s e₁ r₁ s₁ h₁
  have ht₂ := step_current_time cfg s₁ e₂ r₂ s₂ h₂
  refine ⟨ht₁, ht₂, ?_⟩
  intro t₁ t₂ hc₁ hc₂
  rw [ht₁] at hc₁
  rw [ht₂] at hc₂
  cases hc₁
  cases hc₂
  exact hord

theorem time_monotonicity_witness :
    (State.mk (some 5) none 1 [] 0 [] []).current_time
        = some (Update.effTs (.md ⟨5, none, none⟩)) ∧
      (State.mk (some 7) none 1 [] 0 [] []).current_time
        = some (Update.effTs (.md ⟨7, none, none⟩)) ∧
      ∀ t₁ t₂ : Int,
        (State.mk (some 5) none 1 [] 0 [] []).current_time = some t₁ →
        (State.mk (some 7) none 1 [] 0 [] []).current_time = some t₂ → t₁ ≤ t₂ :=
  time_monotonicity ⟨10000, 100⟩ initState _ _
    (.md ⟨5, none, none⟩) (.md ⟨7, none, none⟩) .BID .BID
    (by decide) (by decide) (by decide)

/-- C8: `next_order_id` returns 1 on its first call (from the freshly
constructed state) and after `n` calls the next call returns `n + 1`,
so successive results increase by exactly one and all returned ids are
distinct. -/
theorem next_order_id_spec :
    (nextOrderId initState).1 = 1 ∧
      (∀ n : Nat, (nextOrderId (afterCalls n initState)).1 = n + 1) ∧
      ∀ m n : Nat, m < n →
        (nextOrderId (afterCalls m initState)).1 < (nextOrderId (afterCalls n initState)).1 := by
  have hval : ∀ n : Nat, (nextOrderId (afterCalls n initState)).1 = n + 1 := by
    intro n
    show (afterCalls n initState).client_order_id = n + 1
    rw [afterCalls_client_order_id]
    show 1 + n = n + 1
    omega
  refine ⟨rfl, hval, ?_⟩
  intro m n hmn
  rw [hval m, hval n]
  omega

theorem next_order_id_spec_witness :
    (nextOrderId (afterCalls 0 initState)).1 < (nextOrderId (afterCalls 2 initState)).1 :=
  next_order_id_spec.2.2 0 2 (by decide)

/-- C9: the snapshot handler reads the first element of both ladders;
whenever a delivered snapshot has non-empty bids and non-empty asks the
handler is total (the step succeeds), while a snapshot with an empty
bid or ask ladder reaches the out-of-range error branch (the step
fails). -/
theorem snapshot_access_safety (cfg : Config) (s : State) (m : MdUpdate)
    (ob : OrderbookSnapshotUpdate) (rng : Side) (hob : m.orderbook = some ob) :
    (ob.bids ≠ [] → ob.asks ≠ [] → (step cfg s (.md m) rng).isSome = true) ∧
      (ob.bids = [] ∨ ob.asks = [] → step cfg s (.md m) rng = none) := by
  constructor
  · intro hb ha
    rcases List.exists_cons_of_ne_nil hb with ⟨bb, tb, hbe⟩
    rcases List.exists_cons_of_ne_nil ha with ⟨ba, ta, hae⟩
    simp [step, hob, hbe, hae]
  · rintro (hb | ha)
    · simp [step, hob, hb]
    · cases hbs : ob.bids with
      | nil => simp [step, hob, hbs]
      | cons bb tb => simp [step, hob, hbs, ha]

theorem snapshot_access_safety_witness :
    (step ⟨10000, 100⟩ initState (.md ⟨0, some ⟨0, [(100, 1)], [(101, 1)]⟩, none⟩) .BID).isSome
        = true ∧
      step ⟨10000, 100⟩ initState (.md ⟨0, some ⟨0, [], [(101, 1)]⟩, none⟩) .BID = none :=
  ⟨(snapshot_access_safety ⟨10000, 100⟩ initState ⟨0, some ⟨0, [(100, 1)], [(101, 1)]⟩, none⟩
        ⟨0, [(100, 1)], [(101, 1)]⟩ .BID rfl).1 (by decide) (by decide),
    (snapshot_access_safety ⟨10000, 100⟩ initState ⟨0, some ⟨0, [], [(101, 1)]⟩, none⟩
        ⟨0, [], [(101, 1)]⟩ .BID rfl).2 (by decide)⟩

/-- Shape of the state after the snapshot branch places one order and
the sweep runs, relative to a base id counter `c`. -/
theorem place_then_sweep_ids (cfg : Config) (now : Int) (x : State) (o : Order) (c : Nat)
    (hinv : ∀ p ∈ x.placed, p.client_order_id < c)
    (hid : o.client_order_id = c ∨ o.client_order_id = c + 1) :
    (sweepAt cfg now (placeOrder x o)).placed = x.placed ++ [o] ∧
      (∀ p ∈ (sweepAt cfg now (placeOrder x o)).placed, p.client_order_id < c + 2) ∧
      ∀ u : Nat, (u = c ∨ u = c + 1) → u ≠ o.client_order_id →
        ∀ p ∈ (sweepAt cfg now (placeOrder x o)).placed, p.client_order_id ≠ u := by
  simp only [sweepAt_placed, placeOrder_placed]
  refine ⟨trivial, ?_, ?_⟩
  · intro p hp
    rcases List.mem_append.1 hp with hp | hp
    · have := hinv p hp
      omega
    · have hpo := List.mem_singleton.1 hp
      subst hpo
      rcases hid with hid | hid <;> omega
  · intro u hu hne p hp
    rcases List.mem_append.1 hp with hp | hp
    · have := hinv p hp
      rcases hu with hu | hu <;> (subst hu; omega)
    · have hpo := List.mem_singleton.1 hp
      subst hpo
      exact Ne.symm hne

/-- C7: for every processed orderbook snapshot (with `max_position` a
non-negative bound, as configured): when the position is strictly below
`-max_position` the strategy places the BID candidate at the best bid
price regardless of the random draw; when strictly above
`+max_position` it places the ASK candidate at the best ask price
regardless of the draw; otherwise the placed candidate is chosen by
the random draw. -/
theorem quoting_policy (cfg : Config) (s : State) (m : MdUpdate)
    (ob : OrderbookSnapshotUpdate) (bestBid bestAsk : ℚ × ℚ)
    (restB restA : List (ℚ × ℚ)) (rng : Side) (s' : State)
    (hmax : 0 ≤ cfg.max_position)
    (hob : m.orderbook = some ob)
    (hbs : ob.bids = bestBid :: restB) (has : ob.asks = bestAsk :: restA)
    (h : step cfg s (.md m) rng = some s') :
    (s.position_size_quote < -cfg.max_position →
        s'.placed = s.placed
          ++ [{ client_ts := ob.receive_ts + 20, client_order_id := s.client_order_id,
                side := .BID, size := 1/1000, price := bestBid.1 }]) ∧
      (s.position_size_quote > cfg.max_position →
        s'.placed = s.placed
          ++ [{ client_ts := ob.receive_ts + 20, client_order_id := s.client_order_id + 1,
                side := .ASK, size := 1/1000, price := bestAsk.1 }]) ∧
      (-cfg.max_position ≤ s.position_size_quote → s.position_size_quote ≤ cfg.max_position →
        s'.placed = s.placed
          ++ [match rng with
              | .BID => { client_ts := ob.receive_ts + 20, client_order_id := s.client_order_id,
                          side := .BID, size := 1/1000, price := bestBid.1 }
              | .ASK => { client_ts := ob.receive_ts + 20,
                          client_order_id := s.client_order_id + 1,
                          side := .ASK, size := 1/1000, price := bestAsk.1 }]) := by
  simp only [step, hob, hbs, has, Option.some.injEq] at h
  subst h
  refine ⟨?_, ?_, ?_⟩
  · intro hpos
    simp only [sweepAt_placed]
    split
    · simp
    · rename_i hcond
      exfalso
      simp only [nextOrderId_snd_position] at hcond
      exact hcond hpos
  · intro hpos
    simp only [sweepAt_placed]
    split
    · rename_i hcond
      exfalso
      simp only [nextOrderId_snd_position] at hcond
      have : ¬(s.position_size_quote < -cfg.max_position) := by linarith
      exact this hcond
    · split
      · simp
      · rename_i hcond2
        exfalso
        simp only [nextOrderId_snd_position] at hcond2
        exact hcond2 hpos
  · intro h1 h2
    simp only [sweepAt_placed]
    split
    · rename_i hcond
      exfalso
      simp only [nextOrderId_snd_position] at hcond
      exact (not_lt.2 h1) hcond
    · split
      · rename_i hcond2
        exfalso
        simp only [nextOrderId_snd_position] at hcond2
        exact (not_lt.2 h2) hcond2
      · cases rng <;> simp

theorem quoting_policy_witness :
    (State.mk (some 0) (some ⟨0, [(100, 1)], [(101, 1)]⟩) 3
        [(1, ⟨(0 : Int) + 20, 1, .BID, 1/1000, 100, 0⟩)] (-20001)
        [⟨(0 : Int) + 20, 1, .BID, 1/1000, 100, 0⟩] []).placed
      = [] ++ [{ client_ts := (0 : Int) + 20, client_order_id := 1, side := .BID,
                 size := 1/1000, price := (100 : ℚ), receive_ts := 0 }] :=
  (quoting_policy ⟨10000, 100⟩ (State.mk none none 1 [] (-20001) [] [])
      ⟨0, some ⟨0, [(100, 1)], [(101, 1)]⟩, none⟩ ⟨0, [(100, 1)], [(101, 1)]⟩
      (100, 1) (101, 1) [] [] .ASK _
      (by norm_num) rfl rfl rfl
      (by norm_num [step, sweepAt, collectExpired, placeOrder, nextOrderId, odInsert,
        odMem, odPop])).1 (by norm_num)

/-- C10 (amended): on every processed orderbook snapshot the id
generator is called exactly twice (the counter advances by exactly 2)
while exactly one order is placed; the placed order carries one of the
two freshly allocated ids and the other allocated id is never attached
to any submitted order.  However, the ids of successively *placed*
orders **can** be consecutive integers: an ASK placement (second id of
its snapshot) followed by a BID placement (first id of the next
snapshot) yields consecutive ids. -/
theorem ids_per_snapshot (cfg : Config) (s : State) (m : MdUpdate)
    (ob : OrderbookSnapshotUpdate) (rng : Side) (s' : State)
    (hob : m.orderbook = some ob)
    (h : step cfg s (.md m) rng = some s')
    (hinv : ∀ o ∈ s.placed, o.client_order_id < s.client_order_id) :
    s'.client_order_id = s.client_order_id + 2 ∧
      (∀ o ∈ s'.placed, o.client_order_id < s'.client_order_id) ∧
      ∃ o : Order, s'.placed = s.placed ++ [o] ∧
        (o.client_order_id = s.client_order_id ∨ o.client_order_id = s.client_order_id + 1) ∧
        ∀ u : Nat, (u = s.client_order_id ∨ u = s.client_order_id + 1) →
          u ≠ o.client_order_id → ∀ p ∈ s'.placed, p.client_order_id ≠ u := by
  cases hbs : ob.bids with
  | nil => simp [step, hob, hbs] at h
  | cons bb tb =>
  cases has : ob.asks with
  | nil => simp [step, hob, hbs, has] at h
  | cons ba ta =>
  simp only [step, hob, hbs, has, Option.some.injEq] at h
  subst h
  split
  · rename_i hcond
    have hkey := place_then_sweep_ids cfg ob.receive_ts _
      { client_ts := ob.receive_ts + 20, client_order_id := s.client_order_id,
        side := .BID, size := 1/1000, price := bb.1 }
      s.client_order_id hinv (Or.inl rfl)
    refine ⟨by simp only [sweepAt_client_order_id, placeOrder_client_order_id,
        nextOrderId_snd_client_order_id], ?_, ?_⟩
    · intro o ho
      have := hkey.2.1 o ho
      simpa using this
    · exact ⟨_, hkey.1, Or.inl rfl, hkey.2.2⟩
  · split
    · rename_i hcond hcond2
      have hkey := place_then_sweep_ids cfg ob.receive_ts _
        { client_ts := ob.receive_ts + 20, client_order_id := s.client_order_id + 1,
          side := .ASK, size := 1/1000, price := ba.1 }
        s.client_order_id hinv (Or.inr rfl)
      refine ⟨by simp only [sweepAt_client_order_id, placeOrder_client_order_id,
          nextOrderId_snd_client_order_id], ?_, ?_⟩
      · intro o ho
        have := hkey.2.1 o ho
        simpa using this
      · exact ⟨_, hkey.1, Or.inr rfl, hkey.2.2⟩
    · cases rng
      · have hkey := place_then_sweep_ids cfg ob.receive_ts _
          { client_ts := ob.receive_ts + 20, client_order_id := s.client_order_id,
            side := .BID, size := 1/1000, price := bb.1 }
          s.client_order_id hinv (Or.inl rfl)
        refine ⟨by simp only [sweepAt_client_order_id, placeOrder_client_order_id,
            nextOrderId_snd_client_order_id], ?_, ?_⟩
        · intro o ho
          have := hkey.2.1 o ho
          simpa using this
        · exact ⟨_, hkey.1, Or.inl rfl, hkey.2.2⟩
      · have hkey := place_then_sweep_ids cfg ob.receive_ts _
          { client_ts := ob.receive_ts + 20, client_order_id := s.client_order_id + 1,
            side := .ASK, size := 1/1000, price := ba.1 }
          s.client_order_id hinv (Or.inr rfl)
        refine ⟨by simp only [sweepAt_client_order_id, placeOrder_client_order_id,
            nextOrderId_snd_client_order_id], ?_, ?_⟩
        · intro o ho
          have := hkey.2.1 o ho
          simpa using this
        · exact ⟨_, hkey.1, Or.inr rfl, hkey.2.2⟩

theorem ids_per_snapshot_witness :
    (State.mk (some 0) (some ⟨0, [(100, 1)], [(101, 1)]⟩) 3
          [(1, ⟨(0 : Int) + 20, 1, .BID, 1/1000, 100, 0⟩)] 0
          [⟨(0 : Int) + 20, 1, .BID, 1/1000, 100, 0⟩] []).client_order_id = 1 + 2 ∧
      (∀ o ∈ (State.mk (some 0) (some ⟨0, [(100, 1)], [(101, 1)]⟩) 3
          [(1, ⟨(0 : Int) + 20, 1, .BID, 1/1000, 100, 0⟩)] 0
          [⟨(0 : Int) + 20, 1, .BID, 1/1000, 100, 0⟩] []).placed,
        o.client_order_id < (State.mk (some 0) (some ⟨0, [(100, 1)], [(101, 1)]⟩) 3
          [(1, ⟨(0 : Int) + 20, 1, .BID, 1/1000, 100, 0⟩)] 0
          [⟨(0 : Int) + 20, 1, .BID, 1/1000, 100, 0⟩] []).client_order_id) ∧
      ∃ o : Order, (State.mk (some 0) (some ⟨0, [(100, 1)], [(101, 1)]⟩) 3
          [(1, ⟨(0 : Int) + 20, 1, .BID, 1/1000, 100, 0⟩)] 0
          [⟨(0 : Int) + 20, 1, .BID, 1/1000, 100, 0⟩] []).placed = [] ++ [o] ∧
        (o.client_order_id = 1 ∨ o.client_order_id = 1 + 1) ∧
        ∀ u : Nat, (u = 1 ∨ u = 1 + 1) → u ≠ o.client_order_id →
          ∀ p ∈ (State.mk (some 0) (some ⟨0, [(100, 1)], [(101, 1)]⟩) 3
            [(1, ⟨(0 : Int) + 20, 1, .BID, 1/1000, 100, 0⟩)] 0
            [⟨(0 : Int) + 20, 1, .BID, 1/1000, 100, 0⟩] []).placed,
            p.client_order_id ≠ u :=
  ids_per_snapshot ⟨10000, 100⟩ initState ⟨0, some ⟨0, [(100, 1)], [(101, 1)]⟩, none⟩
    ⟨0, [(100, 1)], [(101, 1)]⟩ .BID _ rfl
    (by norm_num [step, sweepAt, collectExpired, placeOrder, nextOrderId, odInsert,
      odMem, odPop, initState])
    (by simp [initState])

/-- C10 counterexample: two consecutive snapshots, with the random draw
choosing ASK at the first and BID at the second, place orders with ids
2 and 3 — consecutive integers, refuting the claim that successively
placed orders never carry consecutive ids. -/
theorem consecutive_ids_counterexample :
    run ⟨10000, 100000000⟩ initState
        [(.md ⟨0, some ⟨0, [(100, 1)], [(101, 1)]⟩, none⟩, .ASK),
          (.md ⟨10, some ⟨10, [(100, 1)], [(101, 1)]⟩, none⟩, .BID)]
      = some
          (State.mk (some 10) (some ⟨10, [(100, 1)], [(101, 1)]⟩) 5
            [(2, ⟨(0 : Int) + 20, 2, .ASK, 1/1000, 101, 0⟩),
              (3, ⟨(10 : Int) + 20, 3, .BID, 1/1000, 100, 0⟩)] 0
            [⟨(0 : Int) + 20, 2, .ASK, 1/1000, 101, 0⟩,
              ⟨(10 : Int) + 20, 3, .BID, 1/1000, 100, 0⟩] []) ∧
      (State.mk (some 10) (some ⟨10, [(100, 1)], [(101, 1)]⟩) 5
            [(2, ⟨(0 : Int) + 20, 2, .ASK, 1/1000, 101, 0⟩),
              (3, ⟨(10 : Int) + 20, 3, .BID, 1/1000, 100, 0⟩)] 0
            [⟨(0 : Int) + 20, 2, .ASK, 1/1000, 101, 0⟩,
              ⟨(10 : Int) + 20, 3, .BID, 1/1000, 100, 0⟩] []).placed.map
          (fun o => o.client_order_id) = [2, 2 + 1] := by
  constructor
  · norm_num [run, step, sweepAt, collectExpired, placeOrder, nextOrderId, odInsert,
      odMem, odPop, initState]
  · decide

end Strategy
